import Mathlib

/-!
Verification of the edict (entity) subsystem of qwsv-lua
(`src/server/lua_edict.c`), a Lua binding of the QuakeWorld server's
entity dictionary.

The development shallowly embeds the C code into Lean:
* machine floats (`float`, `double`, `vec_t`) are modelled as exact
  rationals (`ℚ`); all the quantities the claims mention are compared
  and added exactly, so no rounding behaviour is load-bearing;
* the Lua registry (`luaL_ref`/`luaL_unref`) is modelled as a map from
  integer handles to values together with a fresh-handle counter
  (real Lua may reuse released indices; none of the properties proved
  here depend on reuse, only on freshness of a newly created handle
  with respect to the handles currently held);
* fatal errors (`SV_Error`, `luaL_check*` failures) are modelled by
  `Option`/`Except` results, `none`/`.error` meaning the operation
  aborts.

Each section embeds the functions one group of claims is about.
-/

namespace QwsvLua

/-- Generic pointwise update of a total map, used for slot arrays,
registry stores and key/value tables. -/
def upd {α β : Type} [DecidableEq α] (f : α → β) (a : α) (b : β) : α → β :=
  fun x => if x = a then b else f x

theorem upd_same {α β : Type} [DecidableEq α] (f : α → β) (a : α) (b : β) :
    upd f a b a = b := by
  simp [upd]

theorem upd_other {α β : Type} [DecidableEq α] (f : α → β) (a x : α) (b : β)
    (h : x ≠ a) : upd f a b x = f x := by
  simp [upd, h]

/-- Three-component vector (`vec3_t`), components exact rationals. -/
abbrev Vec3 : Type := ℚ × ℚ × ℚ

namespace Alloc

/-!
## Edict store and lifecycle (`ED_Alloc`, `ED_Free`, `ED_ClearEdict`)

This section models the slot-level lifecycle state that `ED_Alloc`'s
replacement policy reads: the `free` flag and `freetime` stamp of each
slot, the live count `sv.num_edicts` and the clock `sv.time`.  The
field-clearing part of `ED_ClearEdict` and the reference-releasing part
of `ED_Free` act on state that is irrelevant to the allocation policy
and are modelled in the `Ed` section.
-/

/-- Modelled from the spec: the reserved client range bound.  The
constant lives in an engine header that is not part of `src/`; the
QuakeWorld value is 32.  The theorems below depend only on
`MAX_CLIENTS + 1 ≤ MAX_EDICTS - 1`. -/
def MAX_CLIENTS : ℕ := 32

/-- Modelled from the spec: the fixed store capacity (engine header,
QuakeWorld value 768). -/
def MAX_EDICTS : ℕ := 768

/-- Lifecycle-relevant part of one `edict_t` slot. -/
structure Slot where
  free : Bool
  freetime : ℚ
  deriving DecidableEq, Repr

/-- The parts of `server_t` that `ED_Alloc` reads: the slot array,
`sv.num_edicts` and `sv.time`. -/
structure AllocState where
  slots : ℕ → Slot
  num_edicts : ℕ
  time : ℚ

/-- The literal `0.5` of the replacement policy, written with `mkRat`
so that it evaluates by kernel reduction. -/
def half : ℚ := mkRat 1 2

theorem half_eq : half = 1/2 := by
  norm_num [half, Rat.mkRat_eq_div]

/-- The replacement-policy test from the `ED_Alloc` scan loop:
`e->free && (e->freetime < 2 || sv.time - e->freetime > 0.5)`. -/
def eligible (s : AllocState) (i : ℕ) : Bool :=
  (s.slots i).free && (decide ((s.slots i).freetime < 2)
    || decide (s.time - (s.slots i).freetime > half))

/-- The `for (i = MAX_CLIENTS + 1; i < sv.num_edicts; i++)` scan of
`ED_Alloc`, written with explicit fuel (the number of remaining
indices) so that it evaluates by kernel reduction.  `allocScan` below
supplies the fuel `sv.num_edicts - i` of the loop. -/
def allocScanGo (s : AllocState) : ℕ → ℕ → Option ℕ
  | 0, _ => none
  | n + 1, i => if eligible s i then some i else allocScanGo s n (i + 1)

/-- The scan of `ED_Alloc`: first index in
`[MAX_CLIENTS + 1, sv.num_edicts)` passing `eligible`. -/
def allocScan (s : AllocState) : Option ℕ :=
  allocScanGo s (s.num_edicts - (MAX_CLIENTS + 1)) (MAX_CLIENTS + 1)

/-- The slot-level effect of `ED_ClearEdict`: `e->free = false` and
`memset(&e->v, 0, ...)`.  `freetime` is not a member of `entvars_t`
and is left untouched by the memset. -/
def clearSlot (s : AllocState) (i : ℕ) : AllocState :=
  { s with slots := upd s.slots i { free := false, freetime := (s.slots i).freetime } }

/-- `ED_Alloc`: scan for an eligible free slot; if none, either step on
the last edict (at capacity, after `SV_UnlinkEdict`) or grow the store
by one.  Returns the new state and the index of the returned edict. -/
def ED_Alloc (s : AllocState) : AllocState × ℕ :=
  match allocScan s with
  | some i => (clearSlot s i, i)
  | none =>
    if s.num_edicts = MAX_EDICTS then
      -- "WARNING: ED_Alloc: no free edicts"; i--; SV_UnlinkEdict(e)
      (clearSlot s (MAX_EDICTS - 1), MAX_EDICTS - 1)
    else
      ({ clearSlot s s.num_edicts with num_edicts := s.num_edicts + 1 }, s.num_edicts)

/-- The slot-level effect of `ED_Free`: `e->free = true` and
`e->freetime = sv.time` (the field resets are modelled in `Ed`). -/
def ED_Free (s : AllocState) (i : ℕ) : AllocState :=
  { s with slots := upd s.slots i { free := true, freetime := s.time } }

/-- Store state right after `SV_SpawnServer`: `sv.num_edicts =
MAX_CLIENTS + 1`, all slots zeroed, `sv.time` at zero. -/
def initState : AllocState :=
  { slots := fun _ => { free := false, freetime := 0 }
    num_edicts := MAX_CLIENTS + 1
    time := 0 }

/-- States reachable by interleaving `ED_Alloc` and `ED_Free` calls
while the clock advances monotonically.  `ED_Free` is only invoked on
live non-client slots, per the reserved-range invariant. -/
inductive Reach : AllocState → Prop
  | init : Reach initState
  | advance {s : AllocState} (t : ℚ) : Reach s → s.time ≤ t → Reach { s with time := t }
  | alloc {s : AllocState} : Reach s → Reach (ED_Alloc s).1
  | free {s : AllocState} (i : ℕ) : Reach s → MAX_CLIENTS < i → i < s.num_edicts →
      Reach (ED_Free s i)

/-- Structural invariant of reachable stores: the live count stays in
`[MAX_CLIENTS + 1, MAX_EDICTS]` and slots beyond it are untouched. -/
def Inv (s : AllocState) : Prop :=
  MAX_CLIENTS + 1 ≤ s.num_edicts ∧ s.num_edicts ≤ MAX_EDICTS ∧
    ∀ j, s.num_edicts ≤ j → s.slots j = { free := false, freetime := 0 }

theorem allocScanGo_some (s : AllocState) :
    ∀ n i k, allocScanGo s n i = some k →
      i ≤ k ∧ k < i + n ∧ eligible s k = true ∧
        ∀ j, i ≤ j → j < k → eligible s j = false := by
  intro n
  induction n with
  | zero => intro i k h; simp [allocScanGo] at h
  | succ n ih =>
    intro i k h
    rw [allocScanGo] at h
    by_cases he : eligible s i
    · rw [if_pos he] at h
      cases h
      exact ⟨le_refl _, by omega, he, fun j h1 h2 => absurd h1 (by omega)⟩
    · rw [if_neg he] at h
      obtain ⟨h1, h2, h3, h4⟩ := ih (i + 1) k h
      refine ⟨by omega, by omega, h3, fun j hj1 hj2 => ?_⟩
      rcases Nat.eq_or_lt_of_le hj1 with rfl | hlt
      · exact Bool.eq_false_iff.mpr he
      · exact h4 j hlt hj2

theorem allocScanGo_none (s : AllocState) :
    ∀ n i, allocScanGo s n i = none →
      ∀ j, i ≤ j → j < i + n → eligible s j = false := by
  intro n
  induction n with
  | zero => intro i _ j h1 h2; omega
  | succ n ih =>
    intro i h j h1 h2
    rw [allocScanGo] at h
    by_cases he : eligible s i
    · rw [if_pos he] at h; cases h
    · rw [if_neg he] at h
      rcases Nat.eq_or_lt_of_le h1 with rfl | hlt
      · exact Bool.eq_false_iff.mpr he
      · exact ih (i + 1) h j hlt (by omega)

theorem allocScan_some (s : AllocState) (k : ℕ) (h : allocScan s = some k) :
    MAX_CLIENTS + 1 ≤ k ∧ k < s.num_edicts ∧ eligible s k = true ∧
      ∀ j, MAX_CLIENTS + 1 ≤ j → j < k → eligible s j = false := by
  obtain ⟨h1, h2, h3, h4⟩ := allocScanGo_some s _ _ k h
  refine ⟨h1, by omega, h3, h4⟩

theorem allocScan_none (s : AllocState) (h : allocScan s = none) :
    ∀ j, MAX_CLIENTS + 1 ≤ j → j < s.num_edicts → eligible s j = false := by
  intro j h1 h2
  exact allocScanGo_none s _ _ h j h1 (by omega)

theorem ED_Alloc_of_scan {s : AllocState} {k : ℕ} (h : allocScan s = some k) :
    ED_Alloc s = (clearSlot s k, k) := by
  unfold ED_Alloc
  rw [h]

theorem ED_Alloc_of_cap {s : AllocState} (h1 : allocScan s = none)
    (h2 : s.num_edicts = MAX_EDICTS) :
    ED_Alloc s = (clearSlot s (MAX_EDICTS - 1), MAX_EDICTS - 1) := by
  unfold ED_Alloc
  rw [h1]
  simp [h2]

theorem ED_Alloc_of_grow {s : AllocState} (h1 : allocScan s = none)
    (h2 : s.num_edicts ≠ MAX_EDICTS) :
    ED_Alloc s = ({ clearSlot s s.num_edicts with num_edicts := s.num_edicts + 1 },
      s.num_edicts) := by
  unfold ED_Alloc
  rw [h1]
  simp [h2]

theorem inv_clearSlot {s : AllocState} (i : ℕ) (hi : i < s.num_edicts) (h : Inv s) :
    Inv (clearSlot s i) := by
  obtain ⟨h1, h2, h3⟩ := h
  refine ⟨h1, h2, fun j hj => ?_⟩
  simp only [clearSlot] at hj ⊢
  rw [upd_other _ _ _ _ (by omega)]
  exact h3 j hj

theorem reach_inv {s : AllocState} (h : Reach s) : Inv s := by
  induction h with
  | init =>
    exact ⟨le_refl _, by norm_num [initState, MAX_CLIENTS, MAX_EDICTS], fun j _ => rfl⟩
  | advance t _ _ ih => exact ⟨ih.1, ih.2.1, ih.2.2⟩
  | @free s i _ hlo hhi ih =>
    refine ⟨ih.1, ih.2.1, fun j hj => ?_⟩
    simp only [ED_Free] at hj ⊢
    rw [upd_other _ _ _ _ (by omega)]
    exact ih.2.2 j hj
  | @alloc s _ ih =>
    obtain ⟨h1, h2, h3⟩ := ih
    rcases hscan : allocScan s with _ | k
    · by_cases hcap : s.num_edicts = MAX_EDICTS
      · rw [ED_Alloc_of_cap hscan hcap]
        exact inv_clearSlot _ (by rw [hcap]; norm_num [MAX_EDICTS]) ⟨h1, h2, h3⟩
      · rw [ED_Alloc_of_grow hscan hcap]
        refine ⟨by simp only [clearSlot]; omega, by simp only [clearSlot]; omega,
          fun j hj => ?_⟩
        simp only [clearSlot] at hj ⊢
        rw [upd_other _ _ _ _ (by omega)]
        exact h3 j (by omega)
    · rw [ED_Alloc_of_scan hscan]
      obtain ⟨hk1, hk2, _, _⟩ := allocScan_some _ _ hscan
      exact inv_clearSlot _ hk2 ⟨h1, h2, h3⟩

theorem eligible_parts {s : AllocState} {i : ℕ} (h : eligible s i = true) :
    (s.slots i).free = true ∧
      ((s.slots i).freetime < 2 ∨ s.time - (s.slots i).freetime > 1/2) := by
  simp only [eligible, Bool.and_eq_true, Bool.or_eq_true, decide_eq_true_eq,
    half_eq] at h
  exact h

/-- C2: on a reachable store, `ED_Alloc` returns an index strictly
greater than `MAX_CLIENTS` on every path (scan, growth, and the
at-capacity fallback that reuses the highest slot `MAX_EDICTS - 1`), so
it never returns the world slot 0 or a client slot `1..MAX_CLIENTS`;
when the scan selects a slot, that slot had `free = true` at selection
time and every smaller non-client index failed the eligibility test
(increasing index order); at capacity, the returned slot is the
highest-indexed one. -/
theorem ED_Alloc_reserved_range (s : AllocState) (hr : Reach s) :
    MAX_CLIENTS < (ED_Alloc s).2 ∧
      (∀ i, allocScan s = some i →
        (ED_Alloc s).2 = i ∧ (s.slots i).free = true ∧
          ∀ j, MAX_CLIENTS < j → j < i → eligible s j = false) ∧
      (allocScan s = none → s.num_edicts = MAX_EDICTS →
        (ED_Alloc s).2 = MAX_EDICTS - 1) := by
  obtain ⟨h1, h2, h3⟩ := reach_inv hr
  rcases hscan : allocScan s with _ | k
  · refine ⟨?_, ?_, ?_⟩
    · by_cases hcap : s.num_edicts = MAX_EDICTS
      · rw [ED_Alloc_of_cap hscan hcap]
        norm_num [MAX_CLIENTS, MAX_EDICTS]
      · rw [ED_Alloc_of_grow hscan hcap]
        show MAX_CLIENTS < s.num_edicts
        omega
    · intro i hi
      cases hi
    · intro _ hcap
      rw [ED_Alloc_of_cap hscan hcap]
  · obtain ⟨hk1, hk2, hk3, hk4⟩ := allocScan_some _ _ hscan
    refine ⟨by rw [ED_Alloc_of_scan hscan]; omega, ?_, ?_⟩
    · intro i hi
      cases hi
      exact ⟨by rw [ED_Alloc_of_scan hscan], (eligible_parts hk3).1,
        fun j hj1 hj2 => hk4 j (by omega) hj2⟩
    · intro hnone
      cases hnone

/-- Witness for C2 at the initial store (growth path returns slot 33). -/
theorem ED_Alloc_reserved_range_witness :
    MAX_CLIENTS < (ED_Alloc initState).2 :=
  (ED_Alloc_reserved_range initState Reach.init).1

/-- Reachable trace refuting C1 as stated: allocate the first dynamic
slot at time 1, free it at time 1.9, call `ED_Alloc` again at time
2.3. -/
def c1s1 : AllocState := { initState with time := 1 }

def c1s2 : AllocState := (ED_Alloc c1s1).1

def c1s3 : AllocState := { c1s2 with time := mkRat 19 10 }

def c1s4 : AllocState := ED_Free c1s3 33

def c1s5 : AllocState := { c1s4 with time := mkRat 23 10 }

theorem c1s5_reach : Reach c1s5 :=
  Reach.advance (mkRat 23 10)
    (Reach.free 33
      (Reach.advance (mkRat 19 10)
        (Reach.alloc (Reach.advance 1 Reach.init (by decide)))
        (by decide))
      (by decide) (by decide))
    (by decide)

/-- C1 counterexample: in the reachable state `c1s5`, slot 33 was freed
at simulation time `T = 1.9` and the current simulation time is `2.3`,
which is **not** less than 2, yet `ED_Alloc` returns slot 33 even
though `2.3 < T + 0.5 = 2.4`.  The warm-up exemption in the code tests
`e->freetime < 2`, not `sv.time < 2` as the claim states. -/
theorem ED_Alloc_warmup_uses_freetime :
    Reach c1s5 ∧ (c1s5.slots 33).free = true ∧
      (c1s5.slots 33).freetime = 19/10 ∧ ¬ c1s5.time < 2 ∧
      c1s5.time < (c1s5.slots 33).freetime + 1/2 ∧
      (ED_Alloc c1s5).2 = 33 :=
  ⟨c1s5_reach, by decide,
    by show mkRat 19 10 = 19/10; norm_num [Rat.mkRat_eq_div],
    by decide,
    by show mkRat 23 10 < mkRat 19 10 + 1/2; norm_num [Rat.mkRat_eq_div],
    by decide⟩

/-- C1 amended: for a reachable store below capacity, a slot whose
free timestamp is at least 2 (so the warm-up exemption, which tests
`freetime < 2`, does not apply) is only returned by `ED_Alloc` strictly
after `freetime + 0.5`.  (At capacity the forced-reuse fallback may
return the highest slot regardless of its timestamps.) -/
theorem ED_Alloc_cooldown (s : AllocState) (hr : Reach s) (i : ℕ)
    (hcap : s.num_edicts < MAX_EDICTS)
    (hres : (ED_Alloc s).2 = i)
    (hfree : (s.slots i).free = true)
    (hT : 2 ≤ (s.slots i).freetime) :
    (s.slots i).freetime + 1/2 < s.time := by
  obtain ⟨h1, h2, h3⟩ := reach_inv hr
  rcases hscan : allocScan s with _ | k
  · rw [ED_Alloc_of_grow hscan (by omega)] at hres
    have : s.slots i = { free := false, freetime := 0 } := by
      apply h3
      simp only at hres
      omega
    rw [this] at hfree
    cases hfree
  · rw [ED_Alloc_of_scan hscan] at hres
    simp only at hres
    subst hres
    obtain ⟨_, _, hk3, _⟩ := allocScan_some _ _ hscan
    rcases (eligible_parts hk3).2 with hlt | hgt
    · linarith
    · linarith

/-- Reachable witness trace for the amended C1: allocate at time 2.5,
free at time 2.6, reallocate at time 3.2 (> 2.6 + 0.5). -/
def c1w1 : AllocState := { initState with time := mkRat 5 2 }

def c1w2 : AllocState := (ED_Alloc c1w1).1

def c1w3 : AllocState := { c1w2 with time := mkRat 26 10 }

def c1w4 : AllocState := ED_Free c1w3 33

def c1w5 : AllocState := { c1w4 with time := mkRat 32 10 }

theorem c1w5_reach : Reach c1w5 :=
  Reach.advance (mkRat 32 10)
    (Reach.free 33
      (Reach.advance (mkRat 26 10)
        (Reach.alloc (Reach.advance (mkRat 5 2) Reach.init (by decide)))
        (by decide))
      (by decide) (by decide))
    (by decide)

unseal Rat.sub in
/-- Witness for the amended C1: slot 33 freed at 2.6 is handed out at
3.2, and indeed `2.6 + 0.5 < 3.2`.  (`Rat.sub` is `@[irreducible]` in
the library; it is unsealed locally so that the ground evaluation of
the scan goes through by `decide`.) -/
theorem ED_Alloc_cooldown_witness :
    (c1w5.slots 33).freetime + 1/2 < c1w5.time :=
  ED_Alloc_cooldown c1w5 c1w5_reach 33 (by decide) (by decide) (by decide) (by decide)

end Alloc

namespace Ed

/-!
## Entity bridge: `ED_Free`, `ED_mt_index`, `ED_mt_newindex`

This section embeds the per-edict field state and the Lua-side state
the bridge manipulates: the registry (`luaL_ref`/`luaL_unref` on
`LUA_REGISTRYINDEX`) and the heap of `vec3_t` userdata values (so that
aliasing of vector values is observable).  The `entvars_t` block is
keyed by field name; the four key lists below enumerate, in source
order, exactly the fields dispatched by the `SET_*`/`PUSH_*` macro
chains of `ED_mt_newindex`/`ED_mt_index` (the chains test distinct
keys, so dispatch by kind-grouped membership is equivalent to the
literal `strcmp` cascade). -/

/-- A Lua value as seen by the bridge: numbers, strings, `vec3_t`
userdata (by heap address, so aliasing is visible), `edict_t` userdata
(carrying the edict's canonical registry handle `e->ref`), functions,
booleans.  `Option LV` with `none` plays the role of nil. -/
inductive LV where
  | num (q : ℚ)
  | str (s : String)
  | vec (a : ℕ)
  | ed (r : ℕ)
  | fn (f : ℕ)
  | boolean (b : Bool)
  deriving DecidableEq, Repr

/-- Lua-side state: the registry (handle → value, `none` = not live)
with its fresh-handle cursor, and the `vec3_t` userdata heap with its
allocation cursor.  Real Lua may reuse released registry indices; the
properties proved here only need that a newly created handle is fresh
with respect to handles below the cursor, so allocation at the cursor
is a faithful abstraction. -/
structure W where
  reg : ℕ → Option LV
  regNext : ℕ
  heap : ℕ → Vec3
  hnext : ℕ

/-- `luaL_unref(L, LUA_REGISTRYINDEX, h)`. -/
def luaUnref (w : W) (h : ℕ) : W :=
  { w with reg := upd w.reg h none }

/-- `luaL_ref(L, LUA_REGISTRYINDEX)` on a pushed value: returns the
fresh handle. -/
def luaRef (w : W) (v : LV) : W × ℕ :=
  ({ w with reg := upd w.reg w.regNext (some v), regNext := w.regNext + 1 },
    w.regNext)

/-- The `entvars_t` block, keyed by field name.  Kinds are segregated
as in the C struct: float fields, `vec3_t` fields, registry-handle
fields (both the string/function references and the edict references,
which are all `int` handles in `entvars_t`), and the one boolean. -/
structure Entvars where
  floats : String → ℚ
  vecs : String → Vec3
  refs : String → ℕ
  fixangle : Bool

/-- One `edict_t`: the `entvars_t` block `v`, the `free` flag,
`freetime`, the lazily created canonical bridge handle `ref`, the
dynamic overflow table `fields` (inlined; its registry indirection is
not load-bearing for the claims below), and a flag recording whether
the edict is linked into the world bsp (`SV_UnlinkEdict` clears it). -/
structure Edict where
  v : Entvars
  free : Bool
  freetime : ℚ
  ref : ℕ
  fields : String → Option LV
  linked : Bool

/-- `SET_FLOAT`/`PUSH_FLOAT` fields, in the dispatch order of
`ED_mt_newindex`. -/
def hotFloatKeys : List String :=
  ["modelindex", "ltime", "lastruntime", "movetype", "solid", "frame", "skin",
   "effects", "nextthink", "health", "frags", "weapon", "weaponframe",
   "currentammo", "ammo_shells", "ammo_nails", "ammo_rockets", "ammo_cells",
   "items", "takedamage", "deadflag", "button0", "button1", "button2",
   "impulse", "flags", "colormap", "team", "max_health", "teleport_time",
   "armortype", "armorvalue", "waterlevel", "watertype", "ideal_yaw",
   "yaw_speed", "spawnflags", "dmg_take", "dmg_save", "sounds"]

/-- `SET_VEC3`/`PUSH_VEC3` fields, in dispatch order. -/
def hotVecKeys : List String :=
  ["absmin", "absmax", "origin", "oldorigin", "velocity", "angles",
   "avelocity", "mins", "maxs", "size", "view_ofs", "v_angle", "movedir"]

/-- `SET_REF` fields (string/function reference handles owned by the
edict), in dispatch order. -/
def refFieldKeys : List String :=
  ["classname", "model", "touch", "use", "think", "blocked", "weaponmodel",
   "netname", "target", "targetname", "message", "noise", "noise1", "noise2",
   "noise3"]

/-- `SET_EDICT` fields (edict references: they store the target edict's
canonical handle `e2->ref`, which the field does not own), in dispatch
order.  `ED_mt_index` reads them with `PUSH_REF` like the others. -/
def edictRefKeys : List String :=
  ["groundentity", "chain", "enemy", "aiment", "goalentity", "dmg_inflictor",
   "owner"]

/-- The `SET_REF(s)` macro body acting on the current handle value of
the field: release the old handle if nonzero, zero the field, then if
the assigned value is non-nil create a handle for it.  Returns the new
Lua state and the new field value. -/
def SET_REF (w : W) (old : ℕ) (v : Option LV) : W × ℕ :=
  let w1 := if old ≠ 0 then luaUnref w old else w
  match v with
  | none => (w1, 0)
  | some val => luaRef w1 val

/-- The `PUSH_REF(s)` macro body: field value zero pushes nil,
otherwise `lua_rawgeti` pushes the registry entry. -/
def PUSH_REF (w : W) (h : ℕ) : Option LV :=
  if h = 0 then none else w.reg h

/-- `ED_mt_newindex`: the `__newindex` metamethod.  Dispatch over the
hot-field tables first, in kind groups (equivalent to the source's
interleaved `strcmp` cascade since all keys are distinct); unmatched
keys fall through to the dynamic overflow table, deep-copying `vec3_t`
values.  `none` models the fatal `luaL_check*` type errors. -/
def ED_mt_newindex (w : W) (e : Edict) (key : String) (v : Option LV) :
    Option (W × Edict) :=
  if key ∈ hotFloatKeys then
    match v with
    | some (.num q) => some (w, { e with v.floats := upd e.v.floats key q })
    | _ => none
  else if key ∈ hotVecKeys then
    match v with
    | some (.vec a) => some (w, { e with v.vecs := upd e.v.vecs key (w.heap a) })
    | _ => none
  else if key ∈ refFieldKeys then
    let r := SET_REF w (e.v.refs key) v
    some (r.1, { e with v.refs := upd e.v.refs key r.2 })
  else if key ∈ edictRefKeys then
    match v with
    | none => some (w, { e with v.refs := upd e.v.refs key 0 })
    | some (.ed r) => some (w, { e with v.refs := upd e.v.refs key r })
    | _ => none
  else if key = "fixangle" then
    match v with
    | some (.boolean b) => some (w, { e with v.fixangle := b })
    | _ => none
  else
    match v with
    | some (.vec a) =>
      some ({ w with heap := upd w.heap w.hnext (w.heap a), hnext := w.hnext + 1 },
        { e with fields := upd e.fields key (some (.vec w.hnext)) })
    | v' => some (w, { e with fields := upd e.fields key v' })

/-- `ED_mt_index`: the `__index` metamethod.  Hot vector reads model
`PR_Vec3_Push` (vector collaborator, modelled from the spec) as
pushing a fresh userdata copy; reference fields use `PUSH_REF`;
unmatched keys `lua_rawget` the overflow table, returning the stored
value itself. -/
def ED_mt_index (w : W) (e : Edict) (key : String) : W × Option LV :=
  if key ∈ hotFloatKeys then (w, some (.num (e.v.floats key)))
  else if key ∈ hotVecKeys then
    ({ w with heap := upd w.heap w.hnext (e.v.vecs key), hnext := w.hnext + 1 },
      some (.vec w.hnext))
  else if key ∈ refFieldKeys then (w, PUSH_REF w (e.v.refs key))
  else if key ∈ edictRefKeys then (w, PUSH_REF w (e.v.refs key))
  else if key = "fixangle" then (w, some (.boolean e.v.fixangle))
  else (w, e.fields key)

/-- The fields passed to `FREE_REF` by `ED_Free`, in source order. -/
def freeRefNames : List String :=
  ["classname", "model", "touch", "use", "think", "blocked", "weaponmodel",
   "netname", "target", "targetname", "message", "noise", "noise1", "noise2",
   "noise3"]

/-- The `FREE_REF(n)` macro: if the field holds a nonzero handle,
release it and zero the field. -/
def FREE_REF (w : W) (e : Edict) (n : String) : W × Edict :=
  if e.v.refs n ≠ 0 then
    (luaUnref w (e.v.refs n), { e with v.refs := upd e.v.refs n 0 })
  else (w, e)

/-- The `SV_UnlinkEdict` call followed by the fifteen `FREE_REF` lines
of `ED_Free`, in source order. -/
def ED_Free_fold (w : W) (e : Edict) : W × Edict :=
  freeRefNames.foldl (fun q n => FREE_REF q.1 q.2 n) (w, { e with linked := false })

theorem ED_Free_fold_eq (w : W) (e : Edict) : ED_Free_fold w e =
    freeRefNames.foldl (fun q n => FREE_REF q.1 q.2 n)
      (w, { e with linked := false }) := rfl

attribute [irreducible] ED_Free_fold

/-- `ED_Free`: unlink from the world bsp, `FREE_REF` the fifteen
owned reference fields, then mark free, reset the identity-affecting
native fields to defaults, set `nextthink` to the `-1` "never"
sentinel, and stamp `freetime` with the current time. -/
def ED_Free (w : W) (e : Edict) (time : ℚ) : W × Edict :=
  let p := ED_Free_fold w e
  let e1 := p.2
  let e2 := { e1 with
    free := true
    v := { e1.v with
      refs := upd e1.v.refs "model" 0
      floats := upd (upd (upd (upd (upd (upd (upd e1.v.floats
        "takedamage" 0) "modelindex" 0) "colormap" 0) "skin" 0) "frame" 0)
        "nextthink" (-1)) "solid" 0
      vecs := upd (upd e1.v.vecs "origin" ((0, 0, 0) : Vec3)) "angles"
        ((0, 0, 0) : Vec3) }
    freetime := time }
  (p.1, e2)

theorem FREE_REF_refs (w : W) (e : Edict) (n m : String) :
    ((FREE_REF w e n).2).v.refs m = if m = n then 0 else e.v.refs m := by
  unfold FREE_REF
  by_cases h : e.v.refs n ≠ 0
  · rw [if_pos h]
    by_cases hm : m = n
    · subst hm; simp [upd]
    · simp [upd, hm]
  · rw [if_neg h]
    push_neg at h
    by_cases hm : m = n
    · subst hm; simp [h]
    · simp [hm]

theorem FREE_REF_keep (w : W) (e : Edict) (n : String) :
    ((FREE_REF w e n).2).free = e.free ∧
    ((FREE_REF w e n).2).freetime = e.freetime ∧
    ((FREE_REF w e n).2).linked = e.linked ∧
    ((FREE_REF w e n).2).v.floats = e.v.floats ∧
    ((FREE_REF w e n).2).v.vecs = e.v.vecs ∧
    ((FREE_REF w e n).2).fields = e.fields := by
  unfold FREE_REF
  by_cases h : e.v.refs n ≠ 0
  · rw [if_pos h]
    exact ⟨rfl, rfl, rfl, rfl, rfl, rfl⟩
  · rw [if_neg h]
    exact ⟨rfl, rfl, rfl, rfl, rfl, rfl⟩

theorem FREE_REF_reg_mono (w : W) (e : Edict) (n : String) (h : ℕ)
    (hh : w.reg h = none) : ((FREE_REF w e n).1).reg h = none := by
  unfold FREE_REF
  by_cases hc : e.v.refs n ≠ 0
  · rw [if_pos hc]
    show upd w.reg (e.v.refs n) none h = none
    by_cases he : h = e.v.refs n
    · subst he; simp [upd]
    · rw [upd_other _ _ _ _ he]; exact hh
  · rw [if_neg hc]; exact hh

theorem FREE_REF_reg_self (w : W) (e : Edict) (n : String)
    (hne : e.v.refs n ≠ 0) : ((FREE_REF w e n).1).reg (e.v.refs n) = none := by
  unfold FREE_REF
  rw [if_pos hne]
  show upd w.reg (e.v.refs n) none (e.v.refs n) = none
  simp [upd]

/-- The fold of `FREE_REF` over a list of names zeroes exactly the
listed fields. -/
theorem freeRefs_refs (l : List String) (w : W) (e : Edict) (m : String) :
    ((l.foldl (fun q n => FREE_REF q.1 q.2 n) (w, e)).2).v.refs m =
      if m ∈ l then 0 else e.v.refs m := by
  induction l generalizing w e with
  | nil => simp
  | cons n l ih =>
    simp only [List.foldl_cons]
    rw [ih]
    by_cases hm : m ∈ l
    · simp [hm, List.mem_cons]
    · rw [if_neg hm, FREE_REF_refs]
      by_cases hmn : m = n
      · subst hmn; simp
      · simp [hmn, hm]

theorem freeRefs_keep (l : List String) (w : W) (e : Edict) :
    (((l.foldl (fun q n => FREE_REF q.1 q.2 n) (w, e)).2).free = e.free ∧
     ((l.foldl (fun q n => FREE_REF q.1 q.2 n) (w, e)).2).freetime = e.freetime ∧
     ((l.foldl (fun q n => FREE_REF q.1 q.2 n) (w, e)).2).linked = e.linked ∧
     ((l.foldl (fun q n => FREE_REF q.1 q.2 n) (w, e)).2).v.floats = e.v.floats ∧
     ((l.foldl (fun q n => FREE_REF q.1 q.2 n) (w, e)).2).v.vecs = e.v.vecs ∧
     ((l.foldl (fun q n => FREE_REF q.1 q.2 n) (w, e)).2).fields = e.fields) := by
  induction l generalizing w e with
  | nil => exact ⟨rfl, rfl, rfl, rfl, rfl, rfl⟩
  | cons n l ih =>
    simp only [List.foldl_cons]
    obtain ⟨i1, i2, i3, i4, i5, i6⟩ := ih (FREE_REF w e n).1 (FREE_REF w e n).2
    obtain ⟨k1, k2, k3, k4, k5, k6⟩ := FREE_REF_keep w e n
    exact ⟨i1.trans k1, i2.trans k2, i3.trans k3, i4.trans k4, i5.trans k5,
      i6.trans k6⟩

theorem freeRefs_reg_mono (l : List String) (w : W) (e : Edict) (h : ℕ)
    (hh : w.reg h = none) :
    ((l.foldl (fun q n => FREE_REF q.1 q.2 n) (w, e)).1).reg h = none := by
  induction l generalizing w e with
  | nil => exact hh
  | cons n l ih =>
    simp only [List.foldl_cons]
    exact ih (FREE_REF w e n).1 (FREE_REF w e n).2 (FREE_REF_reg_mono w e n h hh)

/-- The fold of `FREE_REF` releases every nonzero handle held in a
listed field. -/
theorem freeRefs_reg (l : List String) (w : W) (e : Edict) :
    ∀ n, n ∈ l → ∀ k, e.v.refs n = k → k ≠ 0 →
    ((l.foldl (fun q n => FREE_REF q.1 q.2 n) (w, e)).1).reg k = none := by
  induction l generalizing w e with
  | nil => intro n hn; cases hn
  | cons n0 l ih =>
    intro n hn k hk hne
    subst hk
    simp only [List.foldl_cons]
    rcases List.mem_cons.mp hn with rfl | hn'
    · exact freeRefs_reg_mono l _ _ _ (FREE_REF_reg_self w e n hne)
    · by_cases hsame : n = n0
      · subst hsame
        exact freeRefs_reg_mono l _ _ _ (FREE_REF_reg_self w e n hne)
      · have hpres : ((FREE_REF w e n0).2).v.refs n = e.v.refs n := by
          rw [FREE_REF_refs, if_neg hsame]
        exact ih (FREE_REF w e n0).1 (FREE_REF w e n0).2 n hn' _ hpres hne

theorem edictRef_not_freed : ∀ n, n ∈ edictRefKeys →
    n ∉ freeRefNames ∧ n ≠ "model" := by decide

set_option maxHeartbeats 2000000 in
/-- C3 amended: after `ED_Free`, the edict is unlinked, the fifteen
owned reference fields (`classname` ... `noise3`) are zeroed and their
previously held nonzero registry handles released, the
identity-affecting native fields are reset to defaults, `nextthink` is
the `-1` "never" sentinel, `free` is set and `freetime` records the
current time — but the edict-reference fields (`enemy`, `owner`,
`chain`, `groundentity`, `aiment`, `goalentity`, `dmg_inflictor`) are
left untouched, since they hold borrowed canonical handles that
`ED_Free` neither releases nor zeroes. -/
theorem ED_Free_spec (w : W) (e : Edict) (t : ℚ) :
    (∀ n, n ∈ freeRefNames → ((ED_Free w e t).2).v.refs n = 0) ∧
    (∀ n, n ∈ freeRefNames → e.v.refs n ≠ 0 →
      ((ED_Free w e t).1).reg (e.v.refs n) = none) ∧
    (∀ n, n ∈ edictRefKeys → ((ED_Free w e t).2).v.refs n = e.v.refs n) ∧
    ((ED_Free w e t).2).v.floats "takedamage" = 0 ∧
    ((ED_Free w e t).2).v.floats "modelindex" = 0 ∧
    ((ED_Free w e t).2).v.floats "colormap" = 0 ∧
    ((ED_Free w e t).2).v.floats "skin" = 0 ∧
    ((ED_Free w e t).2).v.floats "frame" = 0 ∧
    ((ED_Free w e t).2).v.floats "solid" = 0 ∧
    ((ED_Free w e t).2).v.floats "nextthink" = -1 ∧
    ((ED_Free w e t).2).v.vecs "origin" = ((0, 0, 0) : Vec3) ∧
    ((ED_Free w e t).2).v.vecs "angles" = ((0, 0, 0) : Vec3) ∧
    ((ED_Free w e t).2).free = true ∧
    ((ED_Free w e t).2).freetime = t ∧
    ((ED_Free w e t).2).linked = false := by
  have hfold := ED_Free_fold_eq w e
  have hkeep := freeRefs_keep freeRefNames w { e with linked := false }
  have hfl : ((ED_Free w e t).2).v.floats =
      upd (upd (upd (upd (upd (upd (upd ((ED_Free_fold w e).2).v.floats
        "takedamage" 0) "modelindex" 0) "colormap" 0) "skin" 0) "frame" 0)
        "nextthink" (-1)) "solid" 0 := rfl
  have hvc : ((ED_Free w e t).2).v.vecs =
      upd (upd ((ED_Free_fold w e).2).v.vecs
        "origin" ((0, 0, 0) : Vec3)) "angles" ((0, 0, 0) : Vec3) := rfl
  have hrf : ((ED_Free w e t).2).v.refs =
      upd ((ED_Free_fold w e).2).v.refs "model" 0 := rfl
  have hreg : (ED_Free w e t).1 = (ED_Free_fold w e).1 := rfl
  have hlk : ((ED_Free w e t).2).linked = ((ED_Free_fold w e).2).linked := rfl
  refine ⟨?_, ?_, ?_, ?_, ?_, ?_, ?_, ?_, ?_, ?_, ?_, ?_, rfl, rfl, ?_⟩
  · intro n hn
    rw [hrf, hfold]
    by_cases hm : n = "model"
    · subst hm; simp [upd]
    · rw [upd_other _ _ _ _ hm, freeRefs_refs, if_pos hn]
  · intro n hn hne
    rw [hreg, hfold]
    apply freeRefs_reg
    · exact hn
    · rfl
    · exact hne
  · intro n hn
    obtain ⟨hn1, hn2⟩ := edictRef_not_freed n hn
    rw [hrf, hfold]
    rw [upd_other _ _ _ _ hn2, freeRefs_refs, if_neg hn1]
  · rw [hfl]; simp [upd]
  · rw [hfl]; simp [upd]
  · rw [hfl]; simp [upd]
  · rw [hfl]; simp [upd]
  · rw [hfl]; simp [upd]
  · rw [hfl]; simp [upd]
  · rw [hfl]; simp [upd]
  · rw [hvc]; simp [upd]
  · rw [hvc]; simp [upd]
  · rw [hlk, hfold, hkeep.2.2.1]

/-- All-zero `entvars_t` block (the post-`memset` state). -/
def entvars0 : Entvars :=
  { floats := fun _ => 0, vecs := fun _ => ((0, 0, 0) : Vec3),
    refs := fun _ => 0, fixangle := false }

/-- Concrete Lua state for the C3/C4 inputs: handle 5 is live and held
by the edict's `enemy` field. -/
def c3w : W :=
  { reg := upd (fun _ => none) 5 (some (.str "held")), regNext := 6,
    heap := fun _ => ((0, 0, 0) : Vec3), hnext := 0 }

def c3e : Edict :=
  { v := { entvars0 with refs := upd (fun _ => 0) "enemy" 5 },
    free := false, freetime := 0, ref := 1, fields := fun _ => none,
    linked := true }

unseal ED_Free_fold in
/-- C3 counterexample: `ED_Free` does **not** zero or release the
edict-reference field `enemy` — after freeing `c3e`, `enemy` still
holds handle 5 and the registry entry 5 is still live (only the
fifteen `FREE_REF` fields are released). -/
theorem ED_Free_keeps_edict_refs :
    ((ED_Free c3w c3e 3).2).v.refs "enemy" = 5 ∧
    ((ED_Free c3w c3e 3).1).reg 5 = some (.str "held") := by decide

/-- Witness for the amended C3 at a concrete edict: the owned
`classname` field is zeroed. -/
theorem ED_Free_spec_witness :
    ((ED_Free c3w c3e 3).2).v.refs "classname" = 0 :=
  (ED_Free_spec c3w c3e 3).1 "classname" (by decide)

theorem refFieldKeys_not_hot : ∀ k, k ∈ refFieldKeys →
    k ∉ hotFloatKeys ∧ k ∉ hotVecKeys := by decide

theorem edictRefKeys_not_hot : ∀ k, k ∈ edictRefKeys →
    k ∉ hotFloatKeys ∧ k ∉ hotVecKeys ∧ k ∉ refFieldKeys := by decide

/-- C4 amended: for the fifteen `SET_REF` hot reference fields,
assignment first releases any previously held (valid) handle and
leaves the field zero on nil, or installs a fresh handle to the new
value; for the edict-reference fields (`enemy`, `owner`, ...,
dispatched through `SET_EDICT`), assignment does **not** release the
prior handle — it just overwrites the field with the target edict's
canonical handle (or zero on nil) and leaves the registry untouched;
and reading any reference field whose stored value is zero yields nil
rather than a handle. -/
theorem ED_mt_newindex_ref_semantics (w : W) (e : Edict) :
    (∀ key v, key ∈ refFieldKeys → e.v.refs key < w.regNext → 0 < w.regNext →
      (e.v.refs key ≠ 0 →
        ((ED_mt_newindex w e key v).map fun p => p.1.reg (e.v.refs key))
          = some none) ∧
      (((ED_mt_newindex w e key none).map fun p => p.2.v.refs key) = some 0) ∧
      (∀ val, v = some val →
        (((ED_mt_newindex w e key v).map fun p => p.2.v.refs key)
            = some w.regNext) ∧
        w.regNext ≠ 0 ∧
        (((ED_mt_newindex w e key v).map fun p => p.1.reg w.regNext)
            = some (some val)))) ∧
    (∀ key, key ∈ edictRefKeys →
      ED_mt_newindex w e key none = some (w, { e with v.refs := upd e.v.refs key 0 }) ∧
      ∀ r, ED_mt_newindex w e key (some (.ed r)) =
        some (w, { e with v.refs := upd e.v.refs key r })) ∧
    (∀ key, key ∈ refFieldKeys ∨ key ∈ edictRefKeys → e.v.refs key = 0 →
      (ED_mt_index w e key).2 = none) := by
  refine ⟨?_, ?_, ?_⟩
  · intro key v hk hold hpos
    obtain ⟨h1, h2⟩ := refFieldKeys_not_hot key hk
    have hdisp : ∀ v', ED_mt_newindex w e key v' =
        some ((SET_REF w (e.v.refs key) v').1,
          { e with v.refs := upd e.v.refs key (SET_REF w (e.v.refs key) v').2 }) := by
      intro v'
      unfold ED_mt_newindex
      rw [if_neg h1, if_neg h2, if_pos hk]
    have hx : e.v.refs key ≠ w.regNext := by omega
    refine ⟨?_, ?_, ?_⟩
    · intro hne
      rw [hdisp v]
      rcases v with _ | val
      · simp [SET_REF, luaUnref, hne, upd]
      · simp [SET_REF, luaRef, luaUnref, hne, upd, hx]
    · rw [hdisp none]
      simp [SET_REF, luaUnref, upd]
    · intro val hv
      subst hv
      rw [hdisp (some val)]
      refine ⟨?_, by omega, ?_⟩
      · by_cases hne : e.v.refs key = 0
        · simp [SET_REF, luaRef, luaUnref, hne, upd]
        · simp [SET_REF, luaRef, luaUnref, hne, upd]
      · by_cases hne : e.v.refs key = 0
        · simp [SET_REF, luaRef, luaUnref, hne, upd]
        · simp [SET_REF, luaRef, luaUnref, hne, upd]
  · intro key hk
    obtain ⟨h1, h2, h3⟩ := edictRefKeys_not_hot key hk
    constructor
    · unfold ED_mt_newindex
      rw [if_neg h1, if_neg h2, if_neg h3, if_pos hk]
    · intro r
      unfold ED_mt_newindex
      rw [if_neg h1, if_neg h2, if_neg h3, if_pos hk]
  · intro key hk hz
    rcases hk with hk | hk
    · obtain ⟨h1, h2⟩ := refFieldKeys_not_hot key hk
      unfold ED_mt_index
      rw [if_neg h1, if_neg h2, if_pos hk]
      simp [PUSH_REF, hz]
    · obtain ⟨h1, h2, h3⟩ := edictRefKeys_not_hot key hk
      unfold ED_mt_index
      rw [if_neg h1, if_neg h2, if_neg h3, if_pos hk]
      simp [PUSH_REF, hz]

/-- C4 counterexample: assigning a new edict (handle 7) to the `enemy`
field of an edict whose `enemy` currently holds handle 5 does **not**
release handle 5 — `SET_EDICT` overwrites without `luaL_unref` — so the
claim that every named reference field (including `enemy` and `owner`)
releases its previous handle on assignment is false. -/
theorem ED_mt_newindex_enemy_no_release :
    ((ED_mt_newindex c3w c3e "enemy" (some (.ed 7))).map
        fun p => p.2.v.refs "enemy") = some 7 ∧
    ((ED_mt_newindex c3w c3e "enemy" (some (.ed 7))).map
        fun p => p.1.reg 5) = some (some (.str "held")) := by decide

/-- Concrete state for the C4 witness: `classname` holds live handle 2. -/
def c4w : W :=
  { reg := upd (fun _ => none) 2 (some (.str "monster")), regNext := 3,
    heap := fun _ => ((0, 0, 0) : Vec3), hnext := 0 }

def c4e : Edict :=
  { v := { entvars0 with refs := upd (fun _ => 0) "classname" 2 },
    free := false, freetime := 0, ref := 1, fields := fun _ => none,
    linked := true }

/-- Witness for the amended C4: overwriting `classname` (handle 2) with
a new string releases handle 2 and installs fresh handle 3. -/
theorem ED_mt_newindex_ref_semantics_witness :
    ((ED_mt_newindex c4w c4e "classname" (some (.str "demon"))).map
        fun p => p.1.reg 2) = some none :=
  (((ED_mt_newindex_ref_semantics c4w c4e).1 "classname"
      (some (.str "demon")) (by decide) (by decide) (by decide)).1 (by decide))

/-- All the keys handled natively by the metamethod dispatch; any
other key resolves against the dynamic overflow table. -/
def hotNames : List String :=
  hotFloatKeys ++ hotVecKeys ++ refFieldKeys ++ edictRefKeys ++ ["fixangle"]

/-- Modelled from the spec: in-place mutation of one stored `vec3_t`
userdata value, as performed by the vector value collaborator
(`PR_Vec3_*`, outside `src/`) when script code assigns to a component
of a vector it holds a reference to. -/
def writeVec (w : W) (a : ℕ) (val : Vec3) : W :=
  { w with heap := upd w.heap a val }

theorem not_hot_parts {key : String} (hk : key ∉ hotNames) :
    key ∉ hotFloatKeys ∧ key ∉ hotVecKeys ∧ key ∉ refFieldKeys ∧
      key ∉ edictRefKeys ∧ key ≠ "fixangle" := by
  simp only [hotNames, List.mem_append, List.mem_singleton] at hk
  push_neg at hk
  exact ⟨hk.1.1.1.1, hk.1.1.1.2, hk.1.1.2, hk.1.2, hk.2⟩

/-- C9 amended: assigning a `vec3_t` value to a dynamic (non-hot)
field stores an equal but freshly allocated copy — so mutating the
original vector afterwards does not affect the stored field — and
reading the field back returns the stored reference itself (the
`lua_rawget` result), i.e. an alias of the stored copy, not another
independent copy. -/
theorem ED_dyn_vec_copy (w : W) (e : Edict) (key : String) (a : ℕ) (u : Vec3)
    (hk : key ∉ hotNames) (ha : a < w.hnext) :
    ((ED_mt_newindex w e key (some (.vec a))).map fun p => p.2.fields key)
        = some (some (.vec w.hnext)) ∧
    w.hnext ≠ a ∧
    ((ED_mt_newindex w e key (some (.vec a))).map fun p => p.1.heap w.hnext)
        = some (w.heap a) ∧
    ((ED_mt_newindex w e key (some (.vec a))).map
        fun p => (writeVec p.1 a u).heap w.hnext) = some (w.heap a) ∧
    ((ED_mt_newindex w e key (some (.vec a))).map
        fun p => (ED_mt_index p.1 p.2 key).2) = some (some (.vec w.hnext)) := by
  obtain ⟨h1, h2, h3, h4, h5⟩ := not_hot_parts hk
  have hna : w.hnext ≠ a := by omega
  have hdisp : ED_mt_newindex w e key (some (.vec a)) =
      some ({ w with heap := upd w.heap w.hnext (w.heap a), hnext := w.hnext + 1 },
        { e with fields := upd e.fields key (some (.vec w.hnext)) }) := by
    unfold ED_mt_newindex
    rw [if_neg h1, if_neg h2, if_neg h3, if_neg h4, if_neg h5]
  have hidx : (ED_mt_index
      { w with heap := upd w.heap w.hnext (w.heap a), hnext := w.hnext + 1 }
      { e with fields := upd e.fields key (some (.vec w.hnext)) } key).2 =
      upd e.fields key (some (.vec w.hnext)) key := by
    unfold ED_mt_index
    rw [if_neg h1, if_neg h2, if_neg h3, if_neg h4, if_neg h5]
  refine ⟨?_, hna, ?_, ?_, ?_⟩
  · rw [hdisp]
    simp [upd]
  · rw [hdisp]
    simp [upd]
  · rw [hdisp]
    simp only [Option.map_some']
    show some ((writeVec _ a u).heap w.hnext) = some (w.heap a)
    simp only [writeVec]
    rw [upd_other _ _ _ _ hna, upd_same]
  · rw [hdisp]
    simp only [Option.map_some']
    rw [hidx, upd_same]

/-- Concrete state for C9: heap address 0 holds the vector `(1,2,3)`. -/
def c9w : W :=
  { reg := fun _ => none, regNext := 1,
    heap := upd (fun _ => ((0, 0, 0) : Vec3)) 0 ((1, 2, 3) : Vec3), hnext := 1 }

def c9e : Edict :=
  { v := entvars0, free := false, freetime := 0, ref := 1,
    fields := fun _ => none, linked := true }

/-- The result of assigning the vector at heap address 0 to the dynamic
field `"pos"`. -/
def c9p : W × Edict :=
  (ED_mt_newindex c9w c9e "pos" (some (.vec 0))).getD (c9w, c9e)

/-- Dereference a stored dynamic-field value as a vector. -/
def derefVec (w : W) (v : Option LV) : Option Vec3 :=
  match v with
  | some (.vec a) => some (w.heap a)
  | _ => none

/-- C9 counterexample: the read-back of a dynamic vector field is the
stored reference itself (`lua_rawget` returns the stored userdata, no
copy), so mutating the vector obtained by reading the field back *does*
change the stored field's value: after writing `(99,2,3)` through the
read-back reference (heap address 1), the stored field dereferences to
`(99,2,3)`, no longer `(1,2,3)`. -/
theorem ED_dyn_vec_readback_alias :
    (ED_mt_newindex c9w c9e "pos" (some (.vec 0))).isSome = true ∧
    c9p.2.fields "pos" = some (.vec 1) ∧
    (ED_mt_index c9p.1 c9p.2 "pos").2 = some (.vec 1) ∧
    derefVec c9p.1 (c9p.2.fields "pos") = some ((1, 2, 3) : Vec3) ∧
    derefVec (writeVec c9p.1 1 ((99, 2, 3) : Vec3)) (c9p.2.fields "pos")
      = some ((99, 2, 3) : Vec3) := by
  refine ⟨rfl, rfl, rfl, ?_, ?_⟩ <;> decide

/-- Witness for the amended C9 at the concrete state: the stored copy
lives at fresh address 1, equals `(1,2,3)`, and survives mutation of
the original address 0. -/
theorem ED_dyn_vec_copy_witness :
    ((ED_mt_newindex c9w c9e "pos" (some (.vec 0))).map
        fun p => (writeVec p.1 0 ((7, 7, 7) : Vec3)).heap 1) = some (c9w.heap 0) :=
  (ED_dyn_vec_copy c9w c9e "pos" 0 ((7, 7, 7) : Vec3) (by decide) (by decide)).2.2.2.1

end Ed

namespace Parse

/-!
## Entity text parser: `ED_SetField`, `ED_ParseEdict`

`sscanf`-style number parsing is embedded over exact rationals; values
are constructed with `mkRat` from integer arithmetic only, so ground
parses evaluate by kernel reduction.  The tokenizer `COM_Parse` is an
external collaborator (whitespace/comment-skipping, one token per
call); the parser is therefore embedded over the token stream it
produces, a `List String`, with `ED_ParseEdict` consuming tokens
strictly left to right exactly as the C loop does. -/

/-- `isspace` characters skipped by `sscanf` conversions. -/
def isWS (c : Char) : Bool :=
  c == ' ' || c == '\t' || c == '\n' || c == '\r' || c == '\x0b' || c == '\x0c'

def digitsVal (ds : List Char) : ℕ :=
  ds.foldl (fun n c => 10 * n + (c.toNat - 48)) 0

/-- One `%f`/`%lf` conversion of `sscanf`: skip leading whitespace,
optional sign, digits with optional fraction and exponent; fails if no
digit is found.  Returns the value and the unconsumed input.  (Hex,
infinity and NaN forms are out of scope — entity data never contains
them; an exponent marker without digits stops before the marker.) -/
def parseNumber (cs : List Char) : Option (ℚ × List Char) :=
  let cs1 := cs.dropWhile isWS
  let sgnNeg : Bool := match cs1 with | '-' :: _ => true | _ => false
  let cs2 : List Char := match cs1 with
    | '-' :: r => r
    | '+' :: r => r
    | _ => cs1
  let ip := cs2.takeWhile Char.isDigit
  let cs3 := cs2.dropWhile Char.isDigit
  let fp : List Char := match cs3 with
    | '.' :: r => r.takeWhile Char.isDigit
    | _ => []
  let cs4 : List Char := match cs3 with
    | '.' :: r => r.dropWhile Char.isDigit
    | _ => cs3
  if ip.isEmpty && fp.isEmpty then none
  else
    let num : ℤ := (if sgnNeg then -1 else 1) *
      ((digitsVal ip : ℤ) * (10 : ℤ) ^ fp.length + (digitsVal fp : ℤ))
    let den : ℕ := 10 ^ fp.length
    match cs4 with
    | c :: r =>
      if c == 'e' || c == 'E' then
        let eNeg : Bool := match r with | '-' :: _ => true | _ => false
        let r2 : List Char := match r with
          | '-' :: rr => rr
          | '+' :: rr => rr
          | _ => r
        let ed := r2.takeWhile Char.isDigit
        if ed.isEmpty then some (mkRat num den, cs4)
        else if eNeg then
          some (mkRat num (den * 10 ^ digitsVal ed), r2.dropWhile Char.isDigit)
        else
          some (mkRat (num * (10 : ℤ) ^ digitsVal ed) den, r2.dropWhile Char.isDigit)
      else some (mkRat num den, cs4)
    | [] => some (mkRat num den, [])

/-- `str_tonumber`: `sscanf(s, "%lf", &d) == 1`. -/
def str_tonumber (s : String) : Option ℚ :=
  (parseNumber s.data).map (fun p => p.1)

/-- `str_tovector`: `sscanf(s, "%f %f %f", ...) == 3` (three successive
conversions must succeed; trailing input is ignored). -/
def str_tovector (s : String) : Option Vec3 :=
  match parseNumber s.data with
  | none => none
  | some (a, r1) =>
    match parseNumber r1 with
    | none => none
    | some (b, r2) =>
      match parseNumber r2 with
      | none => none
      | some (c, _) => some (a, b, c)

/-- The "badly unescape NL" loop at the top of `ED_SetField`: a
two-character `\n` sequence is rewritten in place to a newline (the
previous-character test reads the original buffer). -/
def unescGo : List Char → Option Char → List Char → List Char
  | acc, _, [] => acc.reverse
  | acc, prev, c :: rest =>
    if c == 'n' && prev == some '\\' then unescGo ('\n' :: acc.tail) (some c) rest
    else unescGo (c :: acc) (some c) rest

def ED_unescape (s : String) : String := ⟨unescGo [] none s.data⟩

/-- Value stored in the dynamic overflow table by the text parser. -/
inductive EDValue where
  | vec (v : Vec3)
  | num (q : ℚ)
  | str (s : String)
  deriving DecidableEq, Repr

/-- String registry used by the hot string fields of `ED_SetField`
(`PR_SetString`-style: a fresh handle per stored string). -/
structure SReg where
  store : ℕ → Option String
  next : ℕ

def sregNew (st : SReg) (s : String) : SReg × ℕ :=
  ({ store := upd st.store st.next (some s), next := st.next + 1 }, st.next)

/-- The subset of the edict the text parser touches: the hot fields of
the `FIELD_*` macro list, the `free` flag and the overflow table. -/
structure PEdict where
  sounds : ℚ
  classname : ℕ
  message : ℕ
  origin : Vec3
  angles : Vec3
  target : ℕ
  model : ℕ
  targetname : ℕ
  spawnflags : ℚ
  health : ℚ
  free : Bool
  fields : String → Option EDValue

/-- The hot keys of `ED_SetField`, in source order. -/
def hotFieldNames : List String :=
  ["sounds", "classname", "message", "origin", "angles", "target", "model",
   "targetname", "spawnflags", "health"]

/-- `ED_SetField`: unescape, try the hot `FIELD_*` macros in source
order, then fall through to the overflow table with type inference
(vector, then number, then string).  The `FIELD_FLOAT`, `FIELD_STRING`
and `FIELD_VEC` macro bodies are modelled from the spec (they live in
an engine header that is not under `src/`): a float/vector hot field
parses the value with `str_tonumber`/`str_tovector` and fails the
assignment (fatal in `ED_ParseEdict`) on a parse error; a string hot
field stores a fresh string handle. -/
def ED_SetField (st : SReg) (e : PEdict) (key value0 : String) :
    Option (SReg × PEdict) :=
  let value := ED_unescape value0
  if key = "sounds" then
    (str_tonumber value).map (fun d => (st, { e with sounds := d }))
  else if key = "classname" then
    some ((sregNew st value).1, { e with classname := (sregNew st value).2 })
  else if key = "message" then
    some ((sregNew st value).1, { e with message := (sregNew st value).2 })
  else if key = "origin" then
    (str_tovector value).map (fun v => (st, { e with origin := v }))
  else if key = "angles" then
    (str_tovector value).map (fun v => (st, { e with angles := v }))
  else if key = "target" then
    some ((sregNew st value).1, { e with target := (sregNew st value).2 })
  else if key = "model" then
    some ((sregNew st value).1, { e with model := (sregNew st value).2 })
  else if key = "targetname" then
    some ((sregNew st value).1, { e with targetname := (sregNew st value).2 })
  else if key = "spawnflags" then
    (str_tonumber value).map (fun d => (st, { e with spawnflags := d }))
  else if key = "health" then
    (str_tonumber value).map (fun d => (st, { e with health := d }))
  else
    some (st, { e with fields := upd e.fields key (some (
      match str_tovector value with
      | some v3 => EDValue.vec v3
      | none =>
        match str_tonumber value with
        | some d => EDValue.num d
        | none => EDValue.str value)) })

def rbraceChar : Char := Char.ofNat 125

/-- `com_token[0] == '\x7d'` (closing brace). -/
def startsRBrace (t : String) : Bool :=
  match t.data with
  | c :: _ => c == rbraceChar
  | [] => false

/-- `keyname[0] == '_'`. -/
def startsUnderscore (t : String) : Bool :=
  match t.data with
  | c :: _ => c == '_'
  | [] => false

/-- The key/value loop of `ED_ParseEdict` over the token stream.  The
`Bool` is the local `init` flag; `none` models the fatal `SV_Error`
cases (EOF without closing brace, a closing brace in value position, a
rejected field assignment).  Note that `init` is set before the
underscore-discard test, exactly as in the source. -/
def parseLoop : Bool → List String → SReg → PEdict →
    Option (SReg × PEdict × List String)
  | _, [], _, _ => none
  | ini, tok :: rest, st, e =>
    if startsRBrace tok then
      some (st, (if ini then e else { e with free := true }), rest)
    else
      let anglehack := tok = "angle"
      let key := if tok = "angle" then "angles"
        else if tok = "light" then "light_lev" else tok
      match rest with
      | [] => none
      | vtok :: rest2 =>
        if startsRBrace vtok then none
        else if startsUnderscore key then parseLoop true rest2 st e
        else
          let value := if anglehack then "0 " ++ vtok ++ " 0" else vtok
          match ED_SetField st e key value with
          | none => none
          | some (st2, e2) => parseLoop true rest2 st2 e2

/-- The `memset(&ent->v, 0, sizeof(entvars_t))` of `ED_ParseEdict`
(the `free` flag and the overflow-table handle live outside
`entvars_t` and are not cleared). -/
def clearPV (e : PEdict) : PEdict :=
  { e with
    sounds := 0
    classname := 0
    message := 0
    origin := ((0, 0, 0) : Vec3)
    angles := ((0, 0, 0) : Vec3)
    target := 0
    model := 0
    targetname := 0
    spawnflags := 0
    health := 0 }

/-- `ED_ParseEdict` on the tokens following the opening brace: clear
the native block (unless parsing the world edict, `ent == sv.edicts`),
then run the key/value loop with `init = false`. -/
def ED_ParseEdict (toks : List String) (st : SReg) (e : PEdict)
    (isWorld : Bool) : Option (SReg × PEdict × List String) :=
  parseLoop false toks st (if isWorld then e else clearPV e)

theorem not_hot_field {key : String} (hk : key ∉ hotFieldNames) :
    key ≠ "sounds" ∧ key ≠ "classname" ∧ key ≠ "message" ∧ key ≠ "origin" ∧
    key ≠ "angles" ∧ key ≠ "target" ∧ key ≠ "model" ∧ key ≠ "targetname" ∧
    key ≠ "spawnflags" ∧ key ≠ "health" := by
  simp only [hotFieldNames, List.mem_cons, List.not_mem_nil, or_false] at hk
  push_neg at hk
  exact hk

/-- On a non-hot key, `ED_SetField` always succeeds and stores the
inferred value (vector, else number, else string) in the overflow
table, leaving the registry unchanged. -/
theorem ED_SetField_overflow (st : SReg) (e : PEdict) (key value : String)
    (hk : key ∉ hotFieldNames) :
    ED_SetField st e key value =
      some (st, { e with fields := upd e.fields key (some (
        match str_tovector (ED_unescape value) with
        | some v3 => EDValue.vec v3
        | none =>
          match str_tonumber (ED_unescape value) with
          | some d => EDValue.num d
          | none => EDValue.str (ED_unescape value))) }) := by
  obtain ⟨h1, h2, h3, h4, h5, h6, h7, h8, h9, h10⟩ := not_hot_field hk
  unfold ED_SetField
  rw [if_neg h1, if_neg h2, if_neg h3, if_neg h4, if_neg h5, if_neg h6,
    if_neg h7, if_neg h8, if_neg h9, if_neg h10]

/-- Fresh string registry and zeroed edict used by the concrete parses. -/
def st0 : SReg := { store := fun _ => none, next := 1 }

def e0 : PEdict :=
  { sounds := 0
    classname := 0
    message := 0
    origin := ((0, 0, 0) : Vec3)
    angles := ((0, 0, 0) : Vec3)
    target := 0
    model := 0
    targetname := 0
    spawnflags := 0
    health := 0
    free := false
    fields := fun _ => none }

unseal Rat.mul Rat.inv in
/-- C5: on a non-hot key, `ED_SetField` tries the three-component
vector parse first, then the single-number parse, and otherwise stores
the (unescaped) string — the first successful parse wins — and on the
concrete examples `"1 2 3"` is stored as the vector `(1,2,3)`, `"3.5"`
as the number `3.5`, and `"foo bar"` as a string, all in the overflow
table. -/
theorem ED_SetField_inference (st : SReg) (e : PEdict) (key value : String)
    (hk : key ∉ hotFieldNames) :
    (∀ v3, str_tovector (ED_unescape value) = some v3 →
      ED_SetField st e key value =
        some (st, { e with fields := upd e.fields key (some (.vec v3)) })) ∧
    (str_tovector (ED_unescape value) = none →
      ∀ d, str_tonumber (ED_unescape value) = some d →
      ED_SetField st e key value =
        some (st, { e with fields := upd e.fields key (some (.num d)) })) ∧
    (str_tovector (ED_unescape value) = none →
      str_tonumber (ED_unescape value) = none →
      ED_SetField st e key value =
        some (st, { e with fields := upd e.fields key (some (.str (ED_unescape value))) })) ∧
    ((ED_SetField st0 e0 "mykey" "1 2 3").map fun p => p.2.fields "mykey")
        = some (some (.vec ((1, 2, 3) : Vec3))) ∧
    ((ED_SetField st0 e0 "mykey" "3.5").map fun p => p.2.fields "mykey")
        = some (some (.num (7/2))) ∧
    ((ED_SetField st0 e0 "mykey" "foo bar").map fun p => p.2.fields "mykey")
        = some (some (.str "foo bar")) := by
  refine ⟨?_, ?_, ?_, ?_, ?_, ?_⟩
  · intro v3 hv
    rw [ED_SetField_overflow st e key value hk, hv]
  · intro hv d hd
    rw [ED_SetField_overflow st e key value hk, hv, hd]
  · intro hv hd
    rw [ED_SetField_overflow st e key value hk, hv, hd]
  · decide
  · have h35 : (7/2 : ℚ) = mkRat 7 2 := by norm_num [Rat.mkRat_eq_div]
    rw [h35]
    decide
  · decide

/-- Witness for C5 at `"1 2 3"` on the non-hot key `"mykey"`. -/
theorem ED_SetField_inference_witness :
    ED_SetField st0 e0 "mykey" "1 2 3" =
      some (st0, { e0 with fields := upd e0.fields "mykey" (some (.vec ((1, 2, 3) : Vec3))) }) :=
  (ED_SetField_inference st0 e0 "mykey" "1 2 3" (by decide)).1
    ((1, 2, 3) : Vec3) (by decide)

/-- C10: a non-hot value that fails the three-number vector parse but
whose leading characters parse as a number followed by further text is
stored as that leading number; the remainder of the string is silently
discarded (never stored). -/
theorem ED_SetField_number_prefix (st : SReg) (e : PEdict)
    (key value : String) (d : ℚ) (rest : List Char)
    (hk : key ∉ hotFieldNames)
    (hv : str_tovector (ED_unescape value) = none)
    (hn : parseNumber (ED_unescape value).data = some (d, rest))
    (_hr : rest ≠ []) :
    ED_SetField st e key value =
      some (st, { e with fields := upd e.fields key (some (.num d)) }) := by
  have hd : str_tonumber (ED_unescape value) = some d := by
    unfold str_tonumber
    rw [hn]
    rfl
  rw [ED_SetField_overflow st e key value hk, hv, hd]

/-- Witness for C10: `"1 2"` on the non-hot key `"k2"` stores the
number 1 (the trailing ` 2` is discarded). -/
theorem ED_SetField_number_prefix_witness :
    ED_SetField st0 e0 "k2" "1 2" =
      some (st0, { e0 with fields := upd e0.fields "k2" (some (.num 1)) }) :=
  ED_SetField_number_prefix st0 e0 "k2" "1 2" 1 [' ', '2'] (by decide)
    (by decide) (by decide) (by decide)

theorem parseNumber_space (cs : List Char) :
    parseNumber (' ' :: cs) = parseNumber cs := by
  unfold parseNumber
  rw [List.dropWhile_cons]
  simp +decide [isWS]

theorem parseNumber_zero_space (cs : List Char) :
    parseNumber ('0' :: ' ' :: cs) = some (0, ' ' :: cs) := by
  unfold parseNumber
  rw [List.dropWhile_cons]
  simp +decide [isWS, Char.isDigit, List.takeWhile_cons, List.dropWhile_cons,
    digitsVal, Rat.mkRat_eq_div]

/-- The anglehack expansion `0 v 0` parses as the vector `(0, v, 0)`
whenever the characters of `v` read as the single number `d` (the
middle conversion consumes exactly `v`). -/
theorem str_tovector_expand (v : String) (d : ℚ)
    (hv : parseNumber (v.data ++ [' ', '0']) = some (d, [' ', '0'])) :
    str_tovector ("0 " ++ v ++ " 0") = some ((0, d, 0) : Vec3) := by
  have h1 : ("0 " : String).data = ['0', ' '] := rfl
  have h2 : (" 0" : String).data = [' ', '0'] := rfl
  have hdata : ("0 " ++ v ++ " 0").data = '0' :: ' ' :: (v.data ++ [' ', '0']) := by
    simp [String.data_append, h1, h2]
  have hp3 : parseNumber [' ', '0'] = some ((0 : ℚ), []) := by decide
  unfold str_tovector
  rw [hdata, parseNumber_zero_space]
  simp only [parseNumber_space, hv, hp3]

/-- The anglehack's field assignment: `angles` is a hot `FIELD_VEC`
key, so `ED_SetField` on it with the expanded value stores the vector
`(0, d, 0)` in the native block. -/
theorem ED_SetField_angles_scalar (st : SReg) (e : PEdict) (v : String) (d : ℚ)
    (hunesc : ED_unescape ("0 " ++ v ++ " 0") = "0 " ++ v ++ " 0")
    (hv : parseNumber (v.data ++ [' ', '0']) = some (d, [' ', '0'])) :
    ED_SetField st e "angles" ("0 " ++ v ++ " 0") =
      some (st, { e with angles := ((0, d, 0) : Vec3) }) := by
  unfold ED_SetField
  rw [if_neg (by decide), if_neg (by decide), if_neg (by decide),
    if_neg (by decide), if_pos rfl, hunesc, str_tovector_expand v d hv]
  rfl

/-- The token stream of the C6 document, after the opening brace. -/
def c6toks : List String :=
  ["classname", "foo", "origin", "1 2 3", "_note", "x", "angle", "90", "\x7d"]

def c6run : Option (SReg × PEdict × List String) :=
  ED_ParseEdict c6toks st0 e0 false

/-- C6: key normalization holds for **every** parsed key/value pair of
`ED_ParseEdict`'s loop: (a) a key literally equal to `"angle"` is
renamed to `"angles"` and its value `v` expanded to the string
`0 v 0` before field assignment, and (b) when `v` is a scalar (its
characters read as the single number `d`), that assignment stores the
vector `(0, d, 0)` in the native `angles` field; (c) a key literally
equal to `"light"` is renamed to `"light_lev"`, so the assignment
lands under `"light_lev"` and the `"light"` overflow entry is never
touched; (d) every key beginning with an underscore is discarded
without ever reaching field assignment (state and edict unchanged);
and on the claim's document `classname "foo" origin "1 2 3" _note "x"
angle "90"` the run yields one entity with `classname` dereferencing
to `"foo"`, `origin = (1,2,3)`, no `_note` field, `angles = (0,90,0)`,
not marked free, and the block fully consumed. -/
theorem ED_ParseEdict_key_normalization (ini : Bool) (st : SReg) (e : PEdict)
    (v : String) (rest : List String) :
    (startsRBrace v = false →
      parseLoop ini ("angle" :: v :: rest) st e =
        match ED_SetField st e "angles" ("0 " ++ v ++ " 0") with
        | none => none
        | some (st2, e2) => parseLoop true rest st2 e2) ∧
    (∀ d : ℚ, ED_unescape ("0 " ++ v ++ " 0") = "0 " ++ v ++ " 0" →
      parseNumber (v.data ++ [' ', '0']) = some (d, [' ', '0']) →
      ED_SetField st e "angles" ("0 " ++ v ++ " 0") =
        some (st, { e with angles := ((0, d, 0) : Vec3) })) ∧
    (startsRBrace v = false →
      parseLoop ini ("light" :: v :: rest) st e =
        match ED_SetField st e "light_lev" v with
        | none => none
        | some (st2, e2) => parseLoop true rest st2 e2) ∧
    (((ED_SetField st e "light_lev" v).map fun p => p.2.fields "light")
        = some (e.fields "light")) ∧
    (((ED_SetField st e "light_lev" v).map fun p => (p.2.fields "light_lev").isSome)
        = some true) ∧
    (∀ k : String, startsUnderscore k = true → startsRBrace k = false →
      startsRBrace v = false →
      parseLoop ini (k :: v :: rest) st e = parseLoop true rest st e) ∧
    (c6run.map fun r => r.1.store r.2.1.classname) = some (some "foo") ∧
    (c6run.map fun r => r.2.1.origin) = some ((1, 2, 3) : Vec3) ∧
    (c6run.map fun r => r.2.1.fields "_note") = some none ∧
    (c6run.map fun r => r.2.1.angles) = some ((0, 90, 0) : Vec3) ∧
    (c6run.map fun r => r.2.1.free) = some false ∧
    (c6run.map fun r => r.2.2) = some [] := by
  refine ⟨?_, ?_, ?_, ?_, ?_, ?_, ?_, ?_, ?_, ?_, ?_, ?_⟩
  · intro hbv
    simp +decide [parseLoop, hbv]
  · intro d hunesc hv
    exact ED_SetField_angles_scalar st e v d hunesc hv
  · intro hbv
    simp +decide [parseLoop, hbv]
  · rw [ED_SetField_overflow st e "light_lev" v (by decide)]
    simp only [Option.map_some']
    rw [upd_other _ _ _ _ (show "light" ≠ "light_lev" by decide)]
  · rw [ED_SetField_overflow st e "light_lev" v (by decide)]
    simp only [Option.map_some']
    rw [upd_same]
    rfl
  · intro k hk hbk hbv
    have hka : ¬(k = "angle") := fun h => by
      rw [h] at hk
      exact absurd hk (by decide)
    have hkl : ¬(k = "light") := fun h => by
      rw [h] at hk
      exact absurd hk (by decide)
    simp +decide [parseLoop, hk, hbk, hbv, hka, hkl]
  · decide
  · decide
  · decide
  · decide
  · decide
  · decide

/-- Witness for C6 at the claim's own pair `angle "90"`: the expansion
stores `angles = (0, 90, 0)`, discharging the scalar-value and
unescape hypotheses concretely. -/
theorem ED_ParseEdict_key_normalization_witness :
    ED_SetField st0 e0 "angles" ("0 " ++ "90" ++ " 0") =
      some (st0, { e0 with angles := ((0, 90, 0) : Vec3) }) :=
  (ED_ParseEdict_key_normalization false st0 e0 "90" []).2.1 90
    (by decide) (by decide)

theorem ED_SetField_keeps_free (st : SReg) (e : PEdict) (key value : String) :
    ∀ out, ED_SetField st e key value = some out → out.2.free = e.free := by
  intro out h
  by_cases hk : key ∈ hotFieldNames
  · fin_cases hk <;>
      simp only [ED_SetField, reduceIte] at h <;>
      first
        | (cases h; rfl)
        | (obtain ⟨d, hd, hfd⟩ := Option.map_eq_some'.mp h; cases hfd; rfl)
  · rw [ED_SetField_overflow st e key value hk] at h
    cases h
    rfl

theorem parseLoop_keeps_free : ∀ (n : ℕ) (toks : List String), toks.length ≤ n →
    ∀ st e out, parseLoop true toks st e = some out → out.2.1.free = e.free := by
  intro n
  induction n with
  | zero =>
    intro toks hlen st e out h
    have hnil : toks = [] := List.length_eq_zero.mp (Nat.le_zero.mp hlen)
    subst hnil
    cases h
  | succ n ih =>
    intro toks hlen st e out h
    rcases toks with _ | ⟨tok, rest⟩
    · cases h
    · by_cases hb : startsRBrace tok
      · simp only [parseLoop, if_pos hb, if_true] at h
        cases h
        rfl
      · rcases rest with _ | ⟨vtok, rest2⟩
        · simp only [parseLoop, if_neg hb] at h
          cases h
        · simp only [parseLoop, if_neg hb] at h
          by_cases hbv : startsRBrace vtok
          · rw [if_pos hbv] at h
            cases h
          · rw [if_neg hbv] at h
            by_cases hu : startsUnderscore (if tok = "angle" then "angles"
                else if tok = "light" then "light_lev" else tok)
            · rw [if_pos hu] at h
              exact ih rest2 (by simp at hlen ⊢; omega) st e out h
            · rw [if_neg hu] at h
              rcases hsf : ED_SetField st e
                  (if tok = "angle" then "angles"
                    else if tok = "light" then "light_lev" else tok)
                  (if tok = "angle" then "0 " ++ vtok ++ " 0" else vtok)
                with _ | ⟨st2, e2⟩
              · rw [hsf] at h
                cases h
              · rw [hsf] at h
                rw [ih rest2 (by simp at hlen ⊢; omega) st2 e2 out h]
                exact ED_SetField_keeps_free st e _ _ (st2, e2) hsf

/-- C8 amended: the parser marks an edict free only when its block
contains no key/value pairs at all (the closing brace is the first
token); a block containing at least one pair — even if every pair has
an underscore-prefixed key — sets the `init` flag before the
underscore test and therefore leaves the `free` flag unchanged. -/
theorem ED_ParseEdict_free_rule (st : SReg) (e : PEdict) :
    (∀ tok rest, startsRBrace tok = true →
      parseLoop false (tok :: rest) st e =
        some (st, { e with free := true }, rest)) ∧
    (∀ k v toks out, startsRBrace k = false → startsRBrace v = false →
      parseLoop false (k :: v :: toks) st e = some out →
      out.2.1.free = e.free) := by
  constructor
  · intro tok rest hb
    simp only [parseLoop, if_pos hb]
    rfl
  · intro k v toks out hbk hbv h
    simp only [parseLoop, hbk, Bool.false_eq_true, if_false] at h
    rw [if_neg (by rw [hbv]; exact Bool.false_ne_true)] at h
    by_cases hu : startsUnderscore (if k = "angle" then "angles"
        else if k = "light" then "light_lev" else k)
    · rw [if_pos hu] at h
      exact parseLoop_keeps_free toks.length toks le_rfl st e out h
    · rw [if_neg hu] at h
      rcases hsf : ED_SetField st e
          (if k = "angle" then "angles"
            else if k = "light" then "light_lev" else k)
          (if k = "angle" then "0 " ++ v ++ " 0" else v)
        with _ | ⟨st2, e2⟩
      · rw [hsf] at h
        cases h
      · rw [hsf] at h
        rw [parseLoop_keeps_free toks.length toks le_rfl st2 e2 out h]
        exact ED_SetField_keeps_free st e _ _ (st2, e2) hsf

def c8run : Option (SReg × PEdict × List String) :=
  ED_ParseEdict ["_note", "x", "\x7d"] st0 e0 false

/-- C8 counterexample: a block whose only pair has an
underscore-prefixed key (`_note "x"`) does **not** mark the edict free:
`init = true` is set before the underscore-discard test, so the edict
comes out with `free = false`, contradicting the claim that such a
block marks its edict free immediately. -/
theorem ED_ParseEdict_underscore_only_not_free :
    (c8run.map fun r => r.2.1.free) = some false := by decide

/-- Witness for the amended C8: an immediately closed block does mark
the edict free. -/
theorem ED_ParseEdict_free_rule_witness :
    parseLoop false ["\x7d"] st0 e0 = some (st0, { e0 with free := true }, []) :=
  (ED_ParseEdict_free_rule st0 e0).1 "\x7d" [] (by decide)

end Parse

namespace Prog

/-!
## Program execution bridge: `PR_ExecuteProgram`

The entrypoint handle `fnum` is a C `int` (`func_t`): 0 means "no
callback bound", negative values are the `LUA_NOREF`/`LUA_REFNIL`
sentinels, positive values index the registry.  The `PUSH_GREF` /
`PUSH_GFLOAT` / `GET_GFLOAT` macros live in an engine header outside
`src/`; following the spec they publish native context into the
scripting global namespace (resp. read it back), modelled here as
writes to / reads from the `gfloat`/`gref` maps.  `lua_pcall` of the
callback body is outside the bridge and modelled as succeeding (a
scripting failure is fatal, but no claim depends on it). -/

/-- A registry value as far as the bridge cares: a Lua function or
anything else (`lua_isfunction`). -/
inductive RV where
  | fn
  | other
  deriving DecidableEq, Repr

/-- State read and written by `PR_ExecuteProgram`: the registry, the
`pr_global_struct` fields it touches, the world edict's lazily created
handles, the loading flag, and the scripting global namespace. -/
structure PState where
  reg : ℕ → Option RV
  regNext : ℕ
  self : ℤ
  other : ℤ
  world : ℤ
  loading : Bool
  world_ref : ℕ
  world_fields : ℕ
  startFrame : ℤ
  putClientInServer : ℤ
  setNewParms : ℤ
  setChangeParms : ℤ
  force_retouch : ℚ
  time : ℚ
  parm : ℕ → ℚ
  gfloat : String → ℚ
  gref : String → ℤ
  mapname : ℤ
  serverflags : ℚ
  total_secrets : ℚ
  total_monsters : ℚ
  found_secrets : ℚ
  killed_monsters : ℚ

/-- `ED_EnsureFields(EDICT_NUM(0))`: lazily create the world edict's
bridge handle and overflow-table handle. -/
def ED_EnsureFields_world (st : PState) : PState :=
  let st1 :=
    if st.world_ref = 0 then
      { st with
        reg := upd st.reg st.regNext (some RV.other)
        world_ref := st.regNext
        regNext := st.regNext + 1 }
    else st
  if st1.world_fields = 0 then
    { st1 with
      reg := upd st1.reg st1.regNext (some RV.other)
      world_fields := st1.regNext
      regNext := st1.regNext + 1 }
  else st1

/-- The bootstrap special case of `PR_ExecuteProgram`: create the
world's handle, point `self`/`other`/`world` at it, and publish the
world handle, map name and server counters into the scripting
globals. -/
def PR_bootstrap (st : PState) : PState :=
  let st1 := ED_EnsureFields_world st
  let st2 := { st1 with
    self := (st1.world_ref : ℤ)
    other := (st1.world_ref : ℤ)
    world := (st1.world_ref : ℤ) }
  { st2 with
    gref := upd (upd st2.gref "world" st2.world) "mapname" st2.mapname
    gfloat := upd (upd (upd (upd (upd st2.gfloat
      "serverflags" st2.serverflags) "total_secrets" st2.total_secrets)
      "total_monsters" st2.total_monsters) "found_secrets" st2.found_secrets)
      "killed_monsters" st2.killed_monsters }

/-- The `PUSH_GREF(self/other)` and `PUSH_GFLOAT(force_retouch/time)`
lines executed before every invocation. -/
def PR_pushContext (st : PState) : PState :=
  { st with
    gref := upd (upd st.gref "self" st.self) "other" st.other
    gfloat := upd (upd st.gfloat "force_retouch" st.force_retouch)
      "time" st.time }

/-- The nine `PUSH_GFLOAT(parmN)` lines for `PutClientInServer`. -/
def PR_pushParms (st : PState) : PState :=
  { st with
    gfloat := upd (upd (upd (upd (upd (upd (upd (upd (upd st.gfloat
      "parm1" (st.parm 1)) "parm2" (st.parm 2)) "parm3" (st.parm 3))
      "parm4" (st.parm 4)) "parm5" (st.parm 5)) "parm6" (st.parm 6))
      "parm7" (st.parm 7)) "parm8" (st.parm 8)) "parm9" (st.parm 9) }

/-- The nine `GET_GFLOAT(parmN)` lines after `SetChangeParms` or
`SetNewParms`. -/
def PR_getParms (st : PState) : PState :=
  { st with
    parm := upd (upd (upd (upd (upd (upd (upd (upd (upd st.parm
      1 (st.gfloat "parm1")) 2 (st.gfloat "parm2")) 3 (st.gfloat "parm3"))
      4 (st.gfloat "parm4")) 5 (st.gfloat "parm5")) 6 (st.gfloat "parm6"))
      7 (st.gfloat "parm7")) 8 (st.gfloat "parm8")) 9 (st.gfloat "parm9") }

/-- `PR_ExecuteProgram`: silent no-op on `fnum == 0`; fatal on negative
`fnum`; fatal when the registry entry is not a function; bootstrap on
first invocation while loading; re-read `force_retouch` before
`StartFrame`; fatal when `self` is zero; publish context (plus parms
for `PutClientInServer`), call, and read the parms back after the two
parameter entrypoints. -/
def PR_ExecuteProgram (st : PState) (fnum : ℤ) : Except String PState :=
  if fnum = 0 then .ok st
  else if fnum < 0 then .error "PR_ExecuteProgram got invalid fnum, this is a bug"
  else
    match st.reg fnum.toNat with
    | some RV.fn =>
      let s1 := if st.loading = true ∧ st.world_ref = 0 then PR_bootstrap st else st
      let s2 := if fnum = s1.startFrame then
          { s1 with force_retouch := s1.gfloat "force_retouch" }
        else s1
      if s2.self = 0 then .error "Executing a function with zero self, this is a bug"
      else
        let s3 := PR_pushContext s2
        let s4 := if fnum = s3.putClientInServer then PR_pushParms s3 else s3
        let s5 := if fnum = s4.setChangeParms ∨ fnum = s4.setNewParms then
            PR_getParms s4
          else s4
        .ok s5
    | _ => .error "PR_ExecuteProgram did not get a function"

/-- C7 amended: `PR_ExecuteProgram` is a silent no-op on the zero
sentinel, fatal on a negative sentinel, and fatal on a bound invocation
(the handle denotes a function) whose acting entity `self` is unset —
**except** on the bootstrap path (server still loading and the world
edict has no handle yet), where `self` is first pointed at the world's
freshly created handle, so an unset `self` is not fatal there. -/
theorem PR_ExecuteProgram_contract (st : PState) (fnum : ℤ) :
    (fnum = 0 → PR_ExecuteProgram st fnum = .ok st) ∧
    (fnum < 0 → (PR_ExecuteProgram st fnum).toOption = none) ∧
    (0 < fnum → st.reg fnum.toNat = some RV.fn →
      ¬ (st.loading = true ∧ st.world_ref = 0) → st.self = 0 →
      (PR_ExecuteProgram st fnum).toOption = none) := by
  refine ⟨?_, ?_, ?_⟩
  · intro h
    subst h
    rfl
  · intro h
    unfold PR_ExecuteProgram
    rw [if_neg (by omega), if_pos h]
    rfl
  · intro hpos hfn hboot hself
    unfold PR_ExecuteProgram
    rw [if_neg (by omega), if_neg (by omega)]
    simp only [hfn]
    rw [if_neg hboot]
    by_cases hsf : fnum = st.startFrame
    · rw [if_pos hsf, if_pos (show PState.self _ = 0 from hself)]
      rfl
    · rw [if_neg hsf, if_pos hself]
      rfl

/-- Concrete state refuting C7 as stated: loading, world handle not yet
created, `self` unset, handle 5 bound to a function. -/
def c7st : PState :=
  { reg := upd (fun _ => none) 5 (some RV.fn)
    regNext := 10
    self := 0
    other := 0
    world := 0
    loading := true
    world_ref := 0
    world_fields := 0
    startFrame := -2
    putClientInServer := -2
    setNewParms := -2
    setChangeParms := -2
    force_retouch := 0
    time := 0
    parm := fun _ => 0
    gfloat := fun _ => 0
    gref := fun _ => 0
    mapname := 7
    serverflags := 0
    total_secrets := 0
    total_monsters := 0
    found_secrets := 0
    killed_monsters := 0 }

/-- C7 counterexample: a bound invocation with unset `self` is **not**
fatal on the bootstrap path — `PR_ExecuteProgram` succeeds, having set
`self` to the world's freshly created handle (10), so the claim that an
unset acting entity is always fatal is false. -/
theorem PR_ExecuteProgram_bootstrap_rescues_self :
    c7st.self = 0 ∧ c7st.loading = true ∧ c7st.world_ref = 0 ∧
    c7st.reg 5 = some RV.fn ∧
    ((PR_ExecuteProgram c7st 5).toOption).isSome = true ∧
    ((PR_ExecuteProgram c7st 5).toOption.map fun s => s.self) = some 10 := by
  refine ⟨rfl, rfl, rfl, ?_, ?_, ?_⟩ <;> decide

/-- Concrete state for the C7 witness: not loading, `self` unset,
handle 7 bound to a function. -/
def c7wst : PState :=
  { c7st with
    loading := false
    reg := upd (fun _ => none) 7 (some RV.fn) }

/-- Witness for the amended C7: outside the bootstrap path, a bound
invocation with unset `self` is fatal. -/
theorem PR_ExecuteProgram_contract_witness :
    (PR_ExecuteProgram c7wst 7).toOption = none :=
  (PR_ExecuteProgram_contract c7wst 7).2.2 (by decide) (by decide)
    (by decide) (by decide)

end Prog

end QwsvLua
